import Mathlib

/-
  Verification development for the Collaborative Canvas server.

  Shallow embedding of the server-side components:
  * `StateManager` (state-manager.js): per-room drawing history and undo/redo
    stacks with per-author undo semantics.
  * `RoomManager` (rooms.js): room membership bookkeeping.
  * the socket gateway handlers in server.js (`onDraw`, `onUndo`, `onRedo`,
    `onClearCanvas`, `onJoinRoom`, `onDisconnect`).

  JavaScript `Map`s are modelled as association lists (`List (String × α)`)
  with first-match lookup; `Set`s as insertion-ordered duplicate-free lists.
  Fields a client may omit are `Option`s; JS falsiness of a missing/zero
  timestamp is modelled explicitly.
-/

namespace CollabCanvas

/-- A drawing path record as stored by the server.  `id`, `points` and
`color` come from the client and may be absent (the gateway performs no
validation); `userId` is always set by the gateway; `timestamp` is set by
the gateway or defaulted inside `addPath`. -/
structure Path where
  id : Option String
  points : Option (List (Int × Int))
  color : Option String
  userId : String
  timestamp : Option Nat
deriving DecidableEq, Repr, Inhabited

/-- Per-room drawing state: `{ history: [], undoStack: [] }`. -/
structure RoomState where
  history : List Path
  undoStack : List Path
deriving DecidableEq, Repr, Inhabited

/-- First-match lookup in an association list, modelling `Map.get`. -/
def mapLookup {α : Type} : List (String × α) → String → Option α
  | [], _ => none
  | (k', v) :: rest, k => if k' = k then some v else mapLookup rest k

/-- Membership test, modelling `Map.has`. -/
def mapHas {α : Type} (m : List (String × α)) (k : String) : Bool :=
  (mapLookup m k).isSome

/-- Replace the value stored at a key, modelling the in-place mutation of the
room object obtained from `Map.get` (a no-op when the key is absent). -/
def mapSet {α : Type} (m : List (String × α)) (k : String) (v : α) :
    List (String × α) :=
  m.map (fun kv => if kv.1 = k then (k, v) else kv)

/-- Remove a key, modelling `Map.delete`. -/
def mapErase {α : Type} (m : List (String × α)) (k : String) :
    List (String × α) :=
  m.filter (fun kv => kv.1 ≠ k)

/-- The drawing state store (`StateManager` in state-manager.js): a map from
room id to `RoomState`. -/
structure StateManager where
  rooms : List (String × RoomState)
deriving DecidableEq, Repr, Inhabited

/-- `createRoom(roomId)`: idempotent initialisation to empty history and
undo stack. -/
def StateManager.createRoom (sm : StateManager) (roomId : String) :
    StateManager :=
  if mapHas sm.rooms roomId then sm
  else ⟨sm.rooms ++ [(roomId, ⟨[], []⟩)]⟩

/-- `addPath(roomId, path)`: fails (returns `false`) when the room is absent;
otherwise defaults a JS-falsy timestamp to `now`, appends the path to the
history and unconditionally clears the undo stack. -/
def StateManager.addPath (sm : StateManager) (roomId : String) (path : Path)
    (now : Nat) : Bool × StateManager :=
  match mapLookup sm.rooms roomId with
  | none => (false, sm)
  | some room =>
    let path :=
      if path.timestamp.getD 0 = 0 then { path with timestamp := some now }
      else path
    (true, ⟨mapSet sm.rooms roomId
      { history := room.history ++ [path], undoStack := [] }⟩)

/-- The reverse scan plus splice used by `undo`/`redo`: find the LAST element
whose `userId` matches (the JS loop `for i = length-1 downto 0`), remove it
(`splice(pathIndex, 1)`, preserving the order of everything else) and return
it together with the remaining list. -/
def extractLastByUser : List Path → String → Option (Path × List Path)
  | [], _ => none
  | p :: ps, u =>
    match extractLastByUser ps u with
    | some (q, ps') => some (q, p :: ps')
    | none => if p.userId = u then some (p, ps) else none

/-- `undo(roomId, userId)`: absent room or empty history is a no-op returning
`null`; otherwise the last path by `userId` is spliced out of the history and
pushed onto the undo stack. -/
def StateManager.undo (sm : StateManager) (roomId userId : String) :
    Option Path × StateManager :=
  match mapLookup sm.rooms roomId with
  | none => (none, sm)
  | some room =>
    if room.history.length = 0 then (none, sm)
    else
      match extractLastByUser room.history userId with
      | none => (none, sm)
      | some (path, rest) =>
        (some path, ⟨mapSet sm.rooms roomId
          { history := rest, undoStack := room.undoStack ++ [path] }⟩)

/-- `redo(roomId, userId)`: absent room or empty undo stack is a no-op
returning `null`; otherwise the last undone path by `userId` is spliced out
of the undo stack and appended to the END of the history. -/
def StateManager.redo (sm : StateManager) (roomId userId : String) :
    Option Path × StateManager :=
  match mapLookup sm.rooms roomId with
  | none => (none, sm)
  | some room =>
    if room.undoStack.length = 0 then (none, sm)
    else
      match extractLastByUser room.undoStack userId with
      | none => (none, sm)
      | some (path, rest) =>
        (some path, ⟨mapSet sm.rooms roomId
          { history := room.history ++ [path], undoStack := rest }⟩)

/-- `canUserUndo(roomId, userId)`: true iff the history contains a path by
the user. -/
def StateManager.canUserUndo (sm : StateManager) (roomId userId : String) :
    Bool :=
  match mapLookup sm.rooms roomId with
  | none => false
  | some room => room.history.any (fun p => p.userId == userId)

/-- `canUserRedo(roomId, userId)`: true iff the undo stack contains a path by
the user. -/
def StateManager.canUserRedo (sm : StateManager) (roomId userId : String) :
    Bool :=
  match mapLookup sm.rooms roomId with
  | none => false
  | some room => room.undoStack.any (fun p => p.userId == userId)

/-- `getHistory(roomId)`: the room's history (the JS code returns the shallow
copy `[...room.history]`; in this pure model the list value itself).  The
reference-level consequences of the copy being shallow are modelled
separately by `RefStore` below. -/
def StateManager.getHistory (sm : StateManager) (roomId : String) :
    List Path :=
  match mapLookup sm.rooms roomId with
  | none => []
  | some room => room.history

/-- `clearHistory(roomId)`: full reset of both lists. -/
def StateManager.clearHistory (sm : StateManager) (roomId : String) :
    StateManager :=
  match mapLookup sm.rooms roomId with
  | none => sm
  | some _ => ⟨mapSet sm.rooms roomId { history := [], undoStack := [] }⟩

/-- `clearUserHistory(roomId, userId)`: filter the user's paths out of both
the history and the undo stack, preserving the order of the rest. -/
def StateManager.clearUserHistory (sm : StateManager)
    (roomId userId : String) : StateManager :=
  match mapLookup sm.rooms roomId with
  | none => sm
  | some room => ⟨mapSet sm.rooms roomId
      { history := room.history.filter (fun p => p.userId != userId),
        undoStack := room.undoStack.filter (fun p => p.userId != userId) }⟩

/-- Summary returned by `getRoomState`. -/
structure RoomSummary where
  historySize : Nat
  undoStackSize : Nat
  canUndo : Bool
  canRedo : Bool
deriving DecidableEq, Repr

/-- `getRoomState(roomId)`: `null` for an absent room, otherwise size and
capability summary. -/
def StateManager.getRoomState (sm : StateManager) (roomId : String) :
    Option RoomSummary :=
  match mapLookup sm.rooms roomId with
  | none => none
  | some room =>
    some { historySize := room.history.length,
           undoStackSize := room.undoStack.length,
           canUndo := room.history.length > 0,
           canRedo := room.undoStack.length > 0 }

/-- `deleteRoom(roomId)` on the state store. -/
def StateManager.deleteRoom (sm : StateManager) (roomId : String) :
    StateManager :=
  ⟨mapErase sm.rooms roomId⟩

/-- A session-registry room (`rooms.js`): its member set, modelled as an
insertion-ordered duplicate-free list of socket ids. -/
structure RMRoom where
  users : List String
deriving DecidableEq, Repr, Inhabited

/-- `Set.add`: append if absent. -/
def setAdd (s : List String) (x : String) : List String :=
  if x ∈ s then s else s ++ [x]

/-- `Set.delete`: remove the element. -/
def setDel (s : List String) (x : String) : List String :=
  s.filter (fun y => y != x)

/-- The session registry (`RoomManager` in rooms.js). -/
structure RoomManager where
  rooms : List (String × RMRoom)
deriving DecidableEq, Repr, Inhabited

/-- `createRoom(roomId)` on the registry: idempotent creation with an empty
member set. -/
def RoomManager.createRoom (rm : RoomManager) (roomId : String) :
    RoomManager :=
  if mapHas rm.rooms roomId then rm else ⟨rm.rooms ++ [(roomId, ⟨[]⟩)]⟩

/-- Snapshot returned by `joinRoom`/`leaveRoom`. -/
structure RoomInfo where
  roomId : String
  userCount : Nat
  users : List String
deriving DecidableEq, Repr

/-- `joinRoom(socketId, roomId)`: create the room if needed, add the member,
return the membership snapshot. -/
def RoomManager.joinRoom (rm : RoomManager) (socketId roomId : String) :
    RoomInfo × RoomManager :=
  let rm := rm.createRoom roomId
  match mapLookup rm.rooms roomId with
  | none => (⟨roomId, 0, []⟩, rm)
  | some room =>
    let users := setAdd room.users socketId
    (⟨roomId, users.length, users⟩, ⟨mapSet rm.rooms roomId ⟨users⟩⟩)

/-- Result of `leaveRoom`: `null`, a deleted-room signal, or the snapshot of
the remaining membership. -/
inductive LeaveResult where
  | noRoom : LeaveResult
  | deleted (roomId : String) : LeaveResult
  | remaining (info : RoomInfo) : LeaveResult
deriving DecidableEq, Repr

/-- `leaveRoom(socketId, roomId)`: remove the member; if the member set
becomes empty, delete the room from the registry. -/
def RoomManager.leaveRoom (rm : RoomManager) (socketId roomId : String) :
    LeaveResult × RoomManager :=
  match mapLookup rm.rooms roomId with
  | none => (.noRoom, rm)
  | some room =>
    let users := setDel room.users socketId
    if users.length = 0 then
      (.deleted roomId, ⟨mapErase rm.rooms roomId⟩)
    else
      (.remaining ⟨roomId, users.length, users⟩,
       ⟨mapSet rm.rooms roomId ⟨users⟩⟩)

/-- `isUserInRoom(socketId, roomId)`. -/
def RoomManager.isUserInRoom (rm : RoomManager) (socketId roomId : String) :
    Bool :=
  match mapLookup rm.rooms roomId with
  | none => false
  | some room => room.users.contains socketId

/-- `getRoomUsers(roomId)`. -/
def RoomManager.getRoomUsers (rm : RoomManager) (roomId : String) :
    List String :=
  match mapLookup rm.rooms roomId with
  | none => []
  | some room => room.users

/-- `getRoomUserCount(roomId)`. -/
def RoomManager.getRoomUserCount (rm : RoomManager) (roomId : String) : Nat :=
  match mapLookup rm.rooms roomId with
  | none => 0
  | some room => room.users.length

/-- The iteration of `leaveAllRooms` over the map's keys: for each key the
user belongs to, call `leaveRoom` and record the room id, threading the
mutated registry through the rest of the walk. -/
def leaveAllAux (socketId : String) :
    List String → RoomManager → List String × RoomManager
  | [], rm => ([], rm)
  | k :: ks, rm =>
    if rm.isUserInRoom socketId k then
      let rm' := (rm.leaveRoom socketId k).2
      let (left, rm'') := leaveAllAux socketId ks rm'
      (k :: left, rm'')
    else leaveAllAux socketId ks rm

/-- `leaveAllRooms(socketId)`: walk every room of the registry (in map
order), leaving each one the user is a member of. -/
def RoomManager.leaveAllRooms (rm : RoomManager) (socketId : String) :
    List String × RoomManager :=
  leaveAllAux socketId (rm.rooms.map Prod.fst) rm

/-- `deleteRoom(roomId)` on the registry. -/
def RoomManager.deleteRoom (rm : RoomManager) (roomId : String) :
    RoomManager :=
  ⟨mapErase rm.rooms roomId⟩

/-
  The socket gateway (server.js).
-/

/-- The raw path object a client sends inside a `draw` event; every field may
be missing. -/
structure ClientPath where
  id : Option String
  points : Option (List (Int × Int))
  color : Option String
deriving DecidableEq, Repr

/-- Payload of a `draw` event: `roomId` defaults to `"default"` when absent,
and the `path` field itself may be missing. -/
structure DrawData where
  roomId : Option String
  path : Option ClientPath
deriving DecidableEq, Repr

/-- Payload of `undo`/`redo`/`clear-canvas` events. -/
structure RoomData where
  roomId : Option String
deriving DecidableEq, Repr

/-- The spread `{...path, userId: socket.id, timestamp: Date.now()}`: when
`path` is absent (`{...undefined}` is `{}`), the result carries only the
server-added fields. -/
def tagPath (cp : Option ClientPath) (userId : String) (now : Nat) : Path :=
  match cp with
  | none => { id := none, points := none, color := none,
              userId := userId, timestamp := some now }
  | some c => { id := c.id, points := c.points, color := c.color,
                userId := userId, timestamp := some now }

/-- Messages the gateway emits to clients, tagged by their socket.io event
name and target. -/
inductive Emit where
  | historyMsg (target : String) (paths : List Path) : Emit
  | userJoined (roomId userId : String) (userCount : Nat) : Emit
  | roomInfoMsg (target roomId : String) (userCount : Nat)
      (state : Option RoomSummary) : Emit
  | drawMsg (roomId : String) (path : Path) : Emit
  | undoMsg (roomId : String) (pathId : Option String) (userId : String)
      (canUndo canRedo : Bool) : Emit
  | redoMsg (roomId : String) (path : Path) (userId : String)
      (canUndo canRedo : Bool) : Emit
  | clearCanvasMsg (roomId userId : String) : Emit
  | userLeft (roomId userId : String) (userCount : Nat) : Emit
deriving DecidableEq, Repr

/-- Combined server state: the session registry plus the drawing state
store. -/
structure ServerState where
  rm : RoomManager
  sm : StateManager
deriving DecidableEq, Repr

/-- The `join-room` handler: registry join, store room creation, then the
history / user-joined / room-info emissions. -/
def onJoinRoom (st : ServerState) (sender roomId : String) :
    ServerState × List Emit :=
  let (info, rm') := st.rm.joinRoom sender roomId
  let sm' := st.sm.createRoom roomId
  (⟨rm', sm'⟩,
   [Emit.historyMsg sender (sm'.getHistory roomId),
    Emit.userJoined roomId sender info.userCount,
    Emit.roomInfoMsg sender roomId info.userCount (sm'.getRoomState roomId)])

/-- The `draw` handler: default the room id, silently drop non-members, tag
the path with the sender and a server timestamp, store it, broadcast it. -/
def onDraw (st : ServerState) (sender : String) (data : DrawData)
    (now : Nat) : ServerState × List Emit :=
  let roomId := (data.roomId).getD "default"
  if st.rm.isUserInRoom sender roomId then
    let pathWithUser := tagPath data.path sender now
    let (_, sm') := st.sm.addPath roomId pathWithUser now
    (⟨st.rm, sm'⟩, [Emit.drawMsg roomId pathWithUser])
  else (st, [])

/-- The `undo` handler: drop non-members; broadcast only when the store
actually removed a path. -/
def onUndo (st : ServerState) (sender : String) (data : RoomData) :
    ServerState × List Emit :=
  let roomId := (data.roomId).getD "default"
  if st.rm.isUserInRoom sender roomId then
    match st.sm.undo roomId sender with
    | (some p, sm') =>
      (⟨st.rm, sm'⟩,
       [Emit.undoMsg roomId p.id sender (sm'.canUserUndo roomId sender)
          (sm'.canUserRedo roomId sender)])
    | (none, sm') => (⟨st.rm, sm'⟩, [])
  else (st, [])

/-- The `redo` handler: drop non-members; broadcast only when the store
actually restored a path. -/
def onRedo (st : ServerState) (sender : String) (data : RoomData) :
    ServerState × List Emit :=
  let roomId := (data.roomId).getD "default"
  if st.rm.isUserInRoom sender roomId then
    match st.sm.redo roomId sender with
    | (some p, sm') =>
      (⟨st.rm, sm'⟩,
       [Emit.redoMsg roomId p sender (sm'.canUserUndo roomId sender)
          (sm'.canUserRedo roomId sender)])
    | (none, sm') => (⟨st.rm, sm'⟩, [])
  else (st, [])

/-- The `clear-canvas` handler: drop non-members; otherwise clear the
sender's paths and broadcast. -/
def onClearCanvas (st : ServerState) (sender : String) (data : RoomData) :
    ServerState × List Emit :=
  let roomId := (data.roomId).getD "default"
  if st.rm.isUserInRoom sender roomId then
    (⟨st.rm, st.sm.clearUserHistory roomId sender⟩,
     [Emit.clearCanvasMsg roomId sender])
  else (st, [])

/-- The per-room body of the disconnect handler's `forEach`: read the (post
`leaveAllRooms`) member count, clear the user's paths, emit, and delete the
store state when the count reached zero. -/
def disconnectAux (sender : String) (rm : RoomManager) :
    List String → StateManager → StateManager × List Emit
  | [], sm => (sm, [])
  | roomId :: rest, sm =>
    let userCount := rm.getRoomUserCount roomId
    let sm' := sm.clearUserHistory roomId sender
    let sm'' := if userCount = 0 then sm'.deleteRoom roomId else sm'
    let (smF, emits) := disconnectAux sender rm rest sm''
    (smF,
     Emit.clearCanvasMsg roomId sender
       :: Emit.userLeft roomId sender userCount :: emits)

/-- The `disconnect` handler: leave every room the connection belonged to,
then run the cleanup body over each of them. -/
def onDisconnect (st : ServerState) (sender : String) :
    ServerState × List Emit :=
  let (roomsLeft, rm') := st.rm.leaveAllRooms sender
  let (sm', emits) := disconnectAux sender rm' roomsLeft st.sm
  (⟨rm', sm'⟩, emits)

/-
  Reference-semantics model of `getHistory`'s shallow copy.

  `getHistory` returns `[...room.history]`: the ARRAY is a fresh copy, but
  the `Path` records inside are the very objects the store holds.  `RefStore`
  makes the sharing explicit: path records live in a heap and the store's
  history is a list of references into it.
-/

/-- A store whose history is a list of references (indices) into a heap of
mutable path records. -/
structure RefStore where
  heap : List Path
  history : List Nat
deriving DecidableEq, Repr

/-- The list of references `getHistory` hands to the caller: the spread
copies the array, so the caller gets a fresh array holding the SAME
references. -/
def RefStore.getHistoryRefs (s : RefStore) : List Nat :=
  s.history

/-- A caller mutating, through a reference it received, the path record the
reference points to. -/
def RefStore.writeThroughRef (s : RefStore) (r : Nat) (p : Path) : RefStore :=
  { s with heap := s.heap.set r p }

/-- The store-internal history as the caller-visible sequence of path
records: each reference dereferenced in the heap. -/
def RefStore.derefHistory (s : RefStore) : List Path :=
  s.history.map (fun r => s.heap.getD r default)

/-- Total occurrence count of a path across a room's history and undo
stack (0 when the room is absent): the quantity undo/redo conserve. -/
def stateOcc (sm : StateManager) (roomId : String) (s : Path) : Nat :=
  match mapLookup sm.rooms roomId with
  | none => 0
  | some room => room.history.count s + room.undoStack.count s

/-
  Concrete values used by witnesses and counterexamples.
-/

/-- Concrete stroke `A1` by `user1`. -/
def wA1 : Path := ⟨some "A1", some [(0, 0)], some "black", "user1", some 1⟩

/-- Concrete stroke `A2` by `user2`. -/
def wA2 : Path := ⟨some "A2", some [(1, 1)], some "red", "user2", some 2⟩

/-- Concrete stroke `A3` by `user1`. -/
def wA3 : Path := ⟨some "A3", some [(2, 2)], some "blue", "user1", some 3⟩

/-
  Lemmas about the association-list map model.
-/

@[simp] theorem mapLookup_nil {α : Type} (k : String) :
    mapLookup ([] : List (String × α)) k = none := rfl

@[simp] theorem mapLookup_cons {α : Type} (k' : String) (v' : α)
    (rest : List (String × α)) (k : String) :
    mapLookup ((k', v') :: rest) k =
      if k' = k then some v' else mapLookup rest k := rfl

@[simp] theorem mapSet_nil {α : Type} (k : String) (v : α) :
    mapSet ([] : List (String × α)) k v = [] := rfl

@[simp] theorem mapSet_cons {α : Type} (k' : String) (v' : α)
    (rest : List (String × α)) (k : String) (v : α) :
    mapSet ((k', v') :: rest) k v =
      (if k' = k then (k, v) else (k', v')) :: mapSet rest k v := rfl

@[simp] theorem mapErase_nil {α : Type} (k : String) :
    mapErase ([] : List (String × α)) k = [] := rfl

@[simp] theorem mapErase_cons {α : Type} (k' : String) (v' : α)
    (rest : List (String × α)) (k : String) :
    mapErase ((k', v') :: rest) k =
      if k' = k then mapErase rest k else (k', v') :: mapErase rest k := by
  by_cases h : k' = k <;> simp [mapErase, List.filter_cons, h]

theorem mapLookup_mapSet {α : Type} (m : List (String × α)) (k : String)
    (v : α) :
    mapLookup (mapSet m k v) k = (mapLookup m k).map (fun _ => v) := by
  induction m with
  | nil => rfl
  | cons kv rest ih =>
    obtain ⟨k', v'⟩ := kv
    by_cases h : k' = k
    · subst h
      simp [ih]
    · simp [h, ih]

theorem mapLookup_mapSet_ne {α : Type} (m : List (String × α))
    (k r : String) (v : α) (h : r ≠ k) :
    mapLookup (mapSet m k v) r = mapLookup m r := by
  induction m with
  | nil => rfl
  | cons kv rest ih =>
    obtain ⟨k', v'⟩ := kv
    by_cases hk : k' = k
    · subst hk
      simp [Ne.symm h, ih]
    · by_cases hr : k' = r
      · subst hr
        simp [hk]
      · simp [hk, hr, ih]

theorem mapLookup_mapSet_of_none {α : Type} (m : List (String × α))
    (k r : String) (v : α) (h : mapLookup m r = none) :
    mapLookup (mapSet m k v) r = none := by
  by_cases hk : r = k
  · subst hk
    simp [mapLookup_mapSet, h]
  · rw [mapLookup_mapSet_ne m k r v hk]
    exact h

theorem mapLookup_mapErase_self {α : Type} (m : List (String × α))
    (k : String) :
    mapLookup (mapErase m k) k = none := by
  induction m with
  | nil => rfl
  | cons kv rest ih =>
    obtain ⟨k', v'⟩ := kv
    by_cases h : k' = k
    · simp [h, ih]
    · simp [h, ih]

theorem mapLookup_mapErase_ne {α : Type} (m : List (String × α))
    (k r : String) (h : r ≠ k) :
    mapLookup (mapErase m k) r = mapLookup m r := by
  induction m with
  | nil => rfl
  | cons kv rest ih =>
    obtain ⟨k', v'⟩ := kv
    by_cases hk : k' = k
    · subst hk
      simp [Ne.symm h, ih]
    · by_cases hr : k' = r
      · subst hr
        simp [hk]
      · simp [hk, hr, ih]

theorem mapLookup_mapErase_of_none {α : Type} (m : List (String × α))
    (k r : String) (h : mapLookup m r = none) :
    mapLookup (mapErase m k) r = none := by
  by_cases hk : r = k
  · subst hk
    exact mapLookup_mapErase_self m r
  · rw [mapLookup_mapErase_ne m k r hk]
    exact h

theorem mapLookup_append_of_none {α : Type} (m : List (String × α))
    (k : String) (v : α) (h : mapLookup m k = none) :
    mapLookup (m ++ [(k, v)]) k = some v := by
  induction m with
  | nil => simp
  | cons kv rest ih =>
    obtain ⟨k', v'⟩ := kv
    by_cases hk : k' = k
    · simp [hk] at h
    · simp [hk] at h ⊢
      exact ih h

theorem mem_keys_of_mapLookup {α : Type} (m : List (String × α))
    (k : String) (v : α) (h : mapLookup m k = some v) :
    k ∈ m.map Prod.fst := by
  induction m with
  | nil => simp at h
  | cons kv rest ih =>
    obtain ⟨k', v'⟩ := kv
    by_cases hk : k' = k
    · simp [hk]
    · simp [hk] at h
      simpa using Or.inr (ih h)

/-
  Lemmas about the reverse-scan splice.
-/

theorem extractLastByUser_eq_none_iff (l : List Path) (u : String) :
    extractLastByUser l u = none ↔ ∀ q ∈ l, q.userId ≠ u := by
  induction l with
  | nil => simp [extractLastByUser]
  | cons p ps ih =>
    constructor
    · intro h q hq
      rw [extractLastByUser] at h
      cases he : extractLastByUser ps u with
      | some x =>
        rw [he] at h
        simp at h
      | none =>
        rw [he] at h
        by_cases hp : p.userId = u
        · simp [hp] at h
        · rw [List.mem_cons] at hq
          rcases hq with hq | hq
          · subst hq; exact hp
          · exact (ih.mp he) q hq
    · intro h
      have hps : extractLastByUser ps u = none :=
        ih.mpr (fun q hq => h q (List.mem_cons_of_mem p hq))
      rw [extractLastByUser, hps]
      simp [h p (List.mem_cons_self p ps)]

theorem extractLastByUser_append (pre suf : List Path) (p : Path)
    (u : String) (hu : p.userId = u) (hsuf : ∀ q ∈ suf, q.userId ≠ u) :
    extractLastByUser (pre ++ p :: suf) u = some (p, pre ++ suf) := by
  induction pre with
  | nil =>
    have hs : extractLastByUser suf u = none :=
      (extractLastByUser_eq_none_iff suf u).mpr hsuf
    simp [extractLastByUser, hs, hu]
  | cons a pre ih =>
    simp [extractLastByUser, ih]

theorem extractLastByUser_eq_some (l : List Path) (u : String) (p : Path)
    (rest : List Path) (h : extractLastByUser l u = some (p, rest)) :
    ∃ pre suf, l = pre ++ p :: suf ∧ rest = pre ++ suf ∧ p.userId = u ∧
      ∀ q ∈ suf, q.userId ≠ u := by
  induction l generalizing p rest with
  | nil => simp [extractLastByUser] at h
  | cons a ps ih =>
    rw [extractLastByUser] at h
    cases he : extractLastByUser ps u with
    | some x =>
      obtain ⟨q, ps'⟩ := x
      rw [he] at h
      simp at h
      obtain ⟨hq, hrest⟩ := h
      subst hq
      obtain ⟨pre, suf, h1, h2, h3, h4⟩ := ih q ps' he
      exact ⟨a :: pre, suf, by simp [h1], by simp [← hrest, h2], h3, h4⟩
    | none =>
      rw [he] at h
      by_cases hp : a.userId = u
      · simp [hp] at h
        obtain ⟨hq, hrest⟩ := h
        exact ⟨[], ps, by simp [hq], by simp [hrest], by rw [← hq]; exact hp,
          (extractLastByUser_eq_none_iff ps u).mp he⟩
      · simp [hp] at h

/-- C1: for every room and user `u`, `undo(room, u)` removes the most recent
history entry authored by `u` (the reverse scan finds the last entry by `u`,
i.e. the unique decomposition `history = pre ++ p :: suf` with `p` by `u` and
nothing in `suf` by `u`), preserves the relative order of all other entries
(`pre ++ suf`), and pushes that entry onto the undo stack; when no history
entry is authored by `u`, or the room is absent, the state is unchanged and
the result is none. -/
theorem undo_removes_last_entry_by_author :
    (∀ (sm : StateManager) (roomId u : String) (room : RoomState)
        (pre suf : List Path) (p : Path),
        mapLookup sm.rooms roomId = some room →
        room.history = pre ++ p :: suf →
        p.userId = u →
        (∀ q ∈ suf, q.userId ≠ u) →
        sm.undo roomId u =
          (some p, ⟨mapSet sm.rooms roomId
             { history := pre ++ suf,
               undoStack := room.undoStack ++ [p] }⟩)) ∧
    (∀ (sm : StateManager) (roomId u : String) (room : RoomState),
        mapLookup sm.rooms roomId = some room →
        (∀ q ∈ room.history, q.userId ≠ u) →
        sm.undo roomId u = (none, sm)) ∧
    (∀ (sm : StateManager) (roomId u : String),
        mapLookup sm.rooms roomId = none →
        sm.undo roomId u = (none, sm)) := by
  refine ⟨?_, ?_, ?_⟩
  · intro sm roomId u room pre suf p hr hh hu hsuf
    unfold StateManager.undo
    simp only [hr]
    rw [hh, extractLastByUser_append pre suf p u hu hsuf]
    simp
  · intro sm roomId u room hr hall
    unfold StateManager.undo
    simp only [hr]
    have hnone : extractLastByUser room.history u = none :=
      (extractLastByUser_eq_none_iff _ _).mpr hall
    rw [hnone]
    simp
  · intro sm roomId u h
    unfold StateManager.undo
    simp only [h]

/-- Witness for C1: on history `[A1(user1), A2(user2), A3(user1)]`, undo by
`user1` removes `A3` leaving `[A1, A2]` and pushes `A3`; a second undo by
`user1` removes `A1` leaving `[A2]`; undo by an author with no strokes, and
undo on an absent room, are no-ops returning none. -/
theorem undo_removes_last_entry_by_author_witness :
    (StateManager.mk [("art", ⟨[wA1, wA2, wA3], []⟩)]).undo "art" "user1"
        = (some wA3, StateManager.mk [("art", ⟨[wA1, wA2], [wA3]⟩)]) ∧
    (StateManager.mk [("art", ⟨[wA1, wA2], [wA3]⟩)]).undo "art" "user1"
        = (some wA1, StateManager.mk [("art", ⟨[wA2], [wA3, wA1]⟩)]) ∧
    (StateManager.mk [("art", ⟨[wA2], []⟩)]).undo "art" "user1"
        = (none, StateManager.mk [("art", ⟨[wA2], []⟩)]) ∧
    (StateManager.mk []).undo "art" "user1"
        = (none, StateManager.mk []) := by
  refine ⟨?_, ?_, ?_, ?_⟩
  · exact (undo_removes_last_entry_by_author.1
      (StateManager.mk [("art", ⟨[wA1, wA2, wA3], []⟩)]) "art" "user1"
      (RoomState.mk [wA1, wA2, wA3] []) [wA1, wA2] [] wA3
      (by decide) (by decide) (by decide) (by simp)).trans (by decide)
  · exact (undo_removes_last_entry_by_author.1
      (StateManager.mk [("art", ⟨[wA1, wA2], [wA3]⟩)]) "art" "user1"
      (RoomState.mk [wA1, wA2] [wA3]) [] [wA2] wA1
      (by decide) (by decide) (by decide) (by decide)).trans (by decide)
  · exact undo_removes_last_entry_by_author.2.1
      (StateManager.mk [("art", ⟨[wA2], []⟩)]) "art" "user1"
      (RoomState.mk [wA2] []) (by decide) (by decide)
  · exact undo_removes_last_entry_by_author.2.2
      (StateManager.mk []) "art" "user1" (by decide)

/-- C2: for every room and user `u`, `redo(room, u)` removes the most recent
undo-stack entry authored by `u` (decomposition `undoStack = pre ++ p :: suf`
with nothing in `suf` by `u`) and appends it at the END of the history —
`room.history ++ [p]`, never its original position; when no undo-stack entry
is authored by `u`, or the room is absent, the state is unchanged and the
result is none. -/
theorem redo_appends_last_undone_by_author :
    (∀ (sm : StateManager) (roomId u : String) (room : RoomState)
        (pre suf : List Path) (p : Path),
        mapLookup sm.rooms roomId = some room →
        room.undoStack = pre ++ p :: suf →
        p.userId = u →
        (∀ q ∈ suf, q.userId ≠ u) →
        sm.redo roomId u =
          (some p, ⟨mapSet sm.rooms roomId
             { history := room.history ++ [p],
               undoStack := pre ++ suf }⟩)) ∧
    (∀ (sm : StateManager) (roomId u : String) (room : RoomState),
        mapLookup sm.rooms roomId = some room →
        (∀ q ∈ room.undoStack, q.userId ≠ u) →
        sm.redo roomId u = (none, sm)) ∧
    (∀ (sm : StateManager) (roomId u : String),
        mapLookup sm.rooms roomId = none →
        sm.redo roomId u = (none, sm)) := by
  refine ⟨?_, ?_, ?_⟩
  · intro sm roomId u room pre suf p hr hh hu hsuf
    unfold StateManager.redo
    simp only [hr]
    rw [hh, extractLastByUser_append pre suf p u hu hsuf]
    simp
  · intro sm roomId u room hr hall
    unfold StateManager.redo
    simp only [hr]
    have hnone : extractLastByUser room.undoStack u = none :=
      (extractLastByUser_eq_none_iff _ _).mpr hall
    rw [hnone]
    simp
  · intro sm roomId u h
    unfold StateManager.redo
    simp only [h]

/-- Witness for C2: with history `[A1, A2]` and undo stack `[A3(user1)]`,
redo by `user1` yields history `[A1, A2, A3]` (landing at the end) and an
empty undo stack; redo with no undone entry by the author, and redo on an
absent room, are no-ops returning none. -/
theorem redo_appends_last_undone_by_author_witness :
    (StateManager.mk [("art", ⟨[wA1, wA2], [wA3]⟩)]).redo "art" "user1"
        = (some wA3, StateManager.mk [("art", ⟨[wA1, wA2, wA3], []⟩)]) ∧
    (StateManager.mk [("art", ⟨[wA1, wA2], [wA3]⟩)]).redo "art" "user2"
        = (none, StateManager.mk [("art", ⟨[wA1, wA2], [wA3]⟩)]) ∧
    (StateManager.mk []).redo "art" "user1"
        = (none, StateManager.mk []) := by
  refine ⟨?_, ?_, ?_⟩
  · exact (redo_appends_last_undone_by_author.1
      (StateManager.mk [("art", ⟨[wA1, wA2], [wA3]⟩)]) "art" "user1"
      (RoomState.mk [wA1, wA2] [wA3]) [] [] wA3
      (by decide) (by decide) (by decide) (by simp)).trans (by decide)
  · exact redo_appends_last_undone_by_author.2.1
      (StateManager.mk [("art", ⟨[wA1, wA2], [wA3]⟩)]) "art" "user2"
      (RoomState.mk [wA1, wA2] [wA3]) (by decide) (by decide)
  · exact redo_appends_last_undone_by_author.2.2
      (StateManager.mk []) "art" "user1" (by decide)

/-- C9: every Drawing State Store query or mutation on an absent room id is
total and returns the benign default — `getHistory` the empty list, `undo`
and `redo` none, `canUserUndo`/`canUserRedo` false, `getRoomState` null,
`addPath` false — without creating the room or changing any state (the
returned store is the input store). -/
theorem absent_room_operations_are_benign :
    ∀ (sm : StateManager) (roomId u : String) (path : Path) (now : Nat),
      mapLookup sm.rooms roomId = none →
      sm.getHistory roomId = [] ∧
      sm.undo roomId u = (none, sm) ∧
      sm.redo roomId u = (none, sm) ∧
      sm.canUserUndo roomId u = false ∧
      sm.canUserRedo roomId u = false ∧
      sm.getRoomState roomId = none ∧
      sm.addPath roomId path now = (false, sm) := by
  intro sm roomId u path now h
  refine ⟨?_, ?_, ?_, ?_, ?_, ?_, ?_⟩ <;>
    simp [StateManager.getHistory, StateManager.undo, StateManager.redo,
      StateManager.canUserUndo, StateManager.canUserRedo,
      StateManager.getRoomState, StateManager.addPath, h]

/-- Witness for C9: all seven operations on a store that has never seen room
`"ghost"` return their benign defaults and leave the store untouched. -/
theorem absent_room_operations_are_benign_witness :
    (StateManager.mk [("art", ⟨[wA1], []⟩)]).getHistory "ghost" = [] ∧
    (StateManager.mk [("art", ⟨[wA1], []⟩)]).undo "ghost" "user1"
        = (none, StateManager.mk [("art", ⟨[wA1], []⟩)]) ∧
    (StateManager.mk [("art", ⟨[wA1], []⟩)]).redo "ghost" "user1"
        = (none, StateManager.mk [("art", ⟨[wA1], []⟩)]) ∧
    (StateManager.mk [("art", ⟨[wA1], []⟩)]).canUserUndo "ghost" "user1"
        = false ∧
    (StateManager.mk [("art", ⟨[wA1], []⟩)]).canUserRedo "ghost" "user1"
        = false ∧
    (StateManager.mk [("art", ⟨[wA1], []⟩)]).getRoomState "ghost" = none ∧
    (StateManager.mk [("art", ⟨[wA1], []⟩)]).addPath "ghost" wA2 7
        = (false, StateManager.mk [("art", ⟨[wA1], []⟩)]) :=
  absent_room_operations_are_benign _ "ghost" "user1" wA2 7 (by decide)

/-
  Shared helper lemmas characterising the store operations (used by several
  of the theorems below).
-/

theorem addPath_eq_of_lookup (sm : StateManager) (roomId : String)
    (room : RoomState) (path : Path) (now : Nat)
    (hr : mapLookup sm.rooms roomId = some room) :
    sm.addPath roomId path now =
      (true, ⟨mapSet sm.rooms roomId
        { history := room.history ++
            [if path.timestamp.getD 0 = 0
               then { path with timestamp := some now } else path],
          undoStack := [] }⟩) := by
  unfold StateManager.addPath
  simp only [hr]

theorem redo_eq_of_found (sm : StateManager) (roomId u : String)
    (room : RoomState) (pre suf : List Path) (p : Path)
    (hr : mapLookup sm.rooms roomId = some room)
    (hh : room.undoStack = pre ++ p :: suf)
    (hu : p.userId = u) (hsuf : ∀ q ∈ suf, q.userId ≠ u) :
    sm.redo roomId u =
      (some p, ⟨mapSet sm.rooms roomId
        { history := room.history ++ [p], undoStack := pre ++ suf }⟩) := by
  unfold StateManager.redo
  simp only [hr]
  rw [hh, extractLastByUser_append pre suf p u hu hsuf]
  simp

theorem redo_eq_of_empty_stack (sm : StateManager) (roomId u : String)
    (room : RoomState) (hr : mapLookup sm.rooms roomId = some room)
    (he : room.undoStack = []) :
    sm.redo roomId u = (none, sm) := by
  unfold StateManager.redo
  simp only [hr]
  simp [he]

theorem undo_cases (sm : StateManager) (roomId u : String) :
    sm.undo roomId u = (none, sm) ∨
    ∃ room pre suf p, mapLookup sm.rooms roomId = some room ∧
      room.history = pre ++ p :: suf ∧ p.userId = u ∧
      (∀ q ∈ suf, q.userId ≠ u) ∧
      sm.undo roomId u = (some p, ⟨mapSet sm.rooms roomId
        { history := pre ++ suf,
          undoStack := room.undoStack ++ [p] }⟩) := by
  rcases hr : mapLookup sm.rooms roomId with _ | room
  · left
    unfold StateManager.undo
    simp only [hr]
  · rcases he : extractLastByUser room.history u with _ | ⟨p, rest⟩
    · left
      unfold StateManager.undo
      simp only [hr, he]
      split <;> rfl
    · obtain ⟨pre, suf, h1, h2, h3, h4⟩ :=
        extractLastByUser_eq_some room.history u p rest he
      right
      refine ⟨room, pre, suf, p, rfl, h1, h3, h4, ?_⟩
      unfold StateManager.undo
      simp only [hr, he]
      have hlen : room.history.length ≠ 0 := by
        rw [h1]; simp
      rw [if_neg hlen, h2]

theorem redo_cases (sm : StateManager) (roomId u : String) :
    sm.redo roomId u = (none, sm) ∨
    ∃ room pre suf p, mapLookup sm.rooms roomId = some room ∧
      room.undoStack = pre ++ p :: suf ∧ p.userId = u ∧
      (∀ q ∈ suf, q.userId ≠ u) ∧
      sm.redo roomId u = (some p, ⟨mapSet sm.rooms roomId
        { history := room.history ++ [p],
          undoStack := pre ++ suf }⟩) := by
  rcases hr : mapLookup sm.rooms roomId with _ | room
  · left
    unfold StateManager.redo
    simp only [hr]
  · rcases he : extractLastByUser room.undoStack u with _ | ⟨p, rest⟩
    · left
      unfold StateManager.redo
      simp only [hr, he]
      split <;> rfl
    · obtain ⟨pre, suf, h1, h2, h3, h4⟩ :=
        extractLastByUser_eq_some room.undoStack u p rest he
      right
      refine ⟨room, pre, suf, p, rfl, h1, h3, h4, ?_⟩
      unfold StateManager.redo
      simp only [hr, he]
      have hlen : room.undoStack.length ≠ 0 := by
        rw [h1]; simp
      rw [if_neg hlen, h2]

/-- C3: on any room whose undo stack is non-empty (e.g. after a successful
undo), `addPath` by anyone succeeds, appends the (timestamp-normalised) new
stroke to the history, empties the undo stack entirely, and a later `redo`
by ANY user — in particular the original undoer — is a no-op returning
none. -/
theorem addPath_clears_undo_stack_globally :
    ∀ (sm : StateManager) (roomId : String) (room : RoomState)
      (path : Path) (now : Nat) (v : String),
      mapLookup sm.rooms roomId = some room →
      room.undoStack ≠ [] →
      (sm.addPath roomId path now).1 = true ∧
      mapLookup ((sm.addPath roomId path now).2).rooms roomId =
        some { history := room.history ++
                 [if path.timestamp.getD 0 = 0
                    then { path with timestamp := some now } else path],
               undoStack := [] } ∧
      ((sm.addPath roomId path now).2).redo roomId v
        = (none, (sm.addPath roomId path now).2) := by
  intro sm roomId room path now v hr hne
  rw [addPath_eq_of_lookup sm roomId room path now hr]
  have hlook : mapLookup (mapSet sm.rooms roomId
      { history := room.history ++
          [if path.timestamp.getD 0 = 0
             then { path with timestamp := some now } else path],
        undoStack := [] }) roomId
      = some { history := room.history ++
                 [if path.timestamp.getD 0 = 0
                    then { path with timestamp := some now } else path],
               undoStack := ([] : List Path) } := by
    rw [mapLookup_mapSet, hr]
    rfl
  exact ⟨rfl, hlook, redo_eq_of_empty_stack _ roomId v _ hlook rfl⟩

/-- Witness for C3: room `"art"` has history `[A1(user1)]` and non-empty
undo stack `[A3(user1)]`; `addPath` of `A2` by `user2` succeeds, leaves
history `[A1, A2]` and an empty undo stack, and a later redo by `user1`
(the original undoer) returns none. -/
theorem addPath_clears_undo_stack_globally_witness :
    ((StateManager.mk [("art", ⟨[wA1], [wA3]⟩)]).addPath "art" wA2 9).1
        = true ∧
    mapLookup (((StateManager.mk [("art", ⟨[wA1], [wA3]⟩)]).addPath "art"
        wA2 9).2).rooms "art" = some ⟨[wA1, wA2], []⟩ ∧
    (((StateManager.mk [("art", ⟨[wA1], [wA3]⟩)]).addPath "art" wA2
        9).2).redo "art" "user1"
      = (none, ((StateManager.mk [("art", ⟨[wA1], [wA3]⟩)]).addPath "art"
          wA2 9).2) := by
  have h := addPath_clears_undo_stack_globally
    (StateManager.mk [("art", ⟨[wA1], [wA3]⟩)]) "art"
    (RoomState.mk [wA1] [wA3]) wA2 9 "user1" (by decide) (by decide)
  exact ⟨h.1, h.2.1.trans (by decide), h.2.2⟩

/-- C4 counterexample: the claim "every accepted stroke is at every later
point in exactly one of history and undo stack, never in neither once
created" is false.  Concretely: stroke `A1` is accepted into room `"r"` and
then undone (so it sits on the undo stack — the undo returns it), and a
subsequent `addPath` of `A2` clears the undo stack, after which the room is
`{history = [A2], undoStack = []}` and `A1` is in neither. -/
theorem stroke_in_neither_counterexample :
    ((((StateManager.mk []).createRoom "r").addPath "r" wA1 1).2.undo "r"
        "user1").1 = some wA1 ∧
    mapLookup ((((((StateManager.mk []).createRoom "r").addPath "r" wA1
        1).2.undo "r" "user1").2).addPath "r" wA2 2).2.rooms "r"
      = some (RoomState.mk [wA2] []) ∧
    ¬ (wA1 ∈ ([wA2] : List Path) ∨ wA1 ∈ ([] : List Path)) := by decide

/-- C4 as amended: `undo` and `redo` preserve, for every stroke value, its
total number of occurrences across the room's history and undo stack (they
only move strokes between the two, so a stroke present in exactly one of
them stays in exactly one and is never duplicated into both); the original
claim's "never in neither once created" clause does not survive `addPath`
(which discards the whole undo stack) or the clear/delete operations. -/
theorem undo_redo_preserve_stroke_multiplicity :
    ∀ (sm : StateManager) (roomId u : String) (s : Path),
      stateOcc ((sm.undo roomId u).2) roomId s = stateOcc sm roomId s ∧
      stateOcc ((sm.redo roomId u).2) roomId s = stateOcc sm roomId s := by
  intro sm roomId u s
  constructor
  · rcases undo_cases sm roomId u with hc |
      ⟨room, pre, suf, p, hr, hh, hu, hsuf, heq⟩
    · rw [hc]
    · rw [heq]
      have hlook : mapLookup (mapSet sm.rooms roomId
          { history := pre ++ suf,
            undoStack := room.undoStack ++ [p] }) roomId
          = some { history := pre ++ suf,
                   undoStack := room.undoStack ++ [p] } := by
        rw [mapLookup_mapSet, hr]
        rfl
      unfold stateOcc
      simp only [hlook, hr, hh]
      simp [List.count_append, List.count_cons]
      omega
  · rcases redo_cases sm roomId u with hc |
      ⟨room, pre, suf, p, hr, hh, hu, hsuf, heq⟩
    · rw [hc]
    · rw [heq]
      have hlook : mapLookup (mapSet sm.rooms roomId
          { history := room.history ++ [p],
            undoStack := pre ++ suf }) roomId
          = some { history := room.history ++ [p],
                   undoStack := pre ++ suf } := by
        rw [mapLookup_mapSet, hr]
        rfl
      unfold stateOcc
      simp only [hlook, hr, hh]
      simp [List.count_append, List.count_cons]
      omega

/-- C10: whenever `undo(room, u)` succeeds returning stroke `p`, an
immediately following `redo(room, u)` returns the same stroke `p`, and the
resulting history is a permutation of the history before the undo (exactly
the same strokes) with `p` as its last entry. -/
theorem undo_then_redo_round_trip :
    ∀ (sm : StateManager) (roomId u : String) (p : Path)
      (sm' : StateManager),
      sm.undo roomId u = (some p, sm') →
      ((sm'.redo roomId u).1 = some p ∧
       (((sm'.redo roomId u).2).getHistory roomId).Perm
         (sm.getHistory roomId) ∧
       (((sm'.redo roomId u).2).getHistory roomId).getLast? = some p) := by
  intro sm roomId u p sm' h
  rcases undo_cases sm roomId u with hc |
    ⟨room, pre, suf, q, hr, hh, hu, hsuf, heq⟩
  · rw [h] at hc
    simp at hc
  · rw [h] at heq
    injection heq with h1 h2
    injection h1 with hpq
    subst hpq
    subst h2
    have hlook : mapLookup (mapSet sm.rooms roomId
        { history := pre ++ suf, undoStack := room.undoStack ++ [p] }) roomId
        = some { history := pre ++ suf,
                 undoStack := room.undoStack ++ [p] } := by
      rw [mapLookup_mapSet, hr]
      rfl
    have hredo := redo_eq_of_found
      (StateManager.mk (mapSet sm.rooms roomId
        { history := pre ++ suf, undoStack := room.undoStack ++ [p] }))
      roomId u
      { history := pre ++ suf, undoStack := room.undoStack ++ [p] }
      room.undoStack [] p hlook rfl hu (by simp)
    have hlook2 : mapLookup (mapSet (mapSet sm.rooms roomId
        { history := pre ++ suf, undoStack := room.undoStack ++ [p] }) roomId
        { history := (pre ++ suf) ++ [p],
          undoStack := room.undoStack ++ [] }) roomId
        = some { history := (pre ++ suf) ++ [p],
                 undoStack := room.undoStack ++ [] } := by
      rw [mapLookup_mapSet, hlook]
      rfl
    rw [hredo]
    refine ⟨rfl, ?_, ?_⟩
    · unfold StateManager.getHistory
      simp only [hlook2, hr, hh]
      exact (List.perm_append_singleton p (pre ++ suf)).trans
        List.perm_middle.symm
    · unfold StateManager.getHistory
      simp only [hlook2]
      simp [List.getLast?_concat]

/-- Witness for C10: in room `"art"` with history `[A1(user1), A2(user2)]`,
undo by `user1` succeeds returning `A1`; the immediate redo returns `A1`
again and the history `[A2, A1]` holds exactly the strokes from before the
undo with `A1` last. -/
theorem undo_then_redo_round_trip_witness :
    ((StateManager.mk [("art", ⟨[wA2], [wA3, wA1]⟩)]).redo "art"
        "user1").1 = some wA1 ∧
    ((((StateManager.mk [("art", ⟨[wA2], [wA3, wA1]⟩)]).redo "art"
        "user1").2).getHistory "art").Perm
      ((StateManager.mk [("art", ⟨[wA1, wA2], [wA3]⟩)]).getHistory
        "art") ∧
    ((((StateManager.mk [("art", ⟨[wA2], [wA3, wA1]⟩)]).redo "art"
        "user1").2).getHistory "art").getLast? = some wA1 :=
  undo_then_redo_round_trip
    (StateManager.mk [("art", ⟨[wA1, wA2], [wA3]⟩)]) "art" "user1" wA1
    (StateManager.mk [("art", ⟨[wA2], [wA3, wA1]⟩)]) (by decide)

/-- C5: a draw, undo, redo or clear-canvas request whose sender is not a
member of the target room is silently dropped by the gateway: the server
state (every room's membership, history and undo stack) is returned exactly
as it was, no error is sent to the sender, and nothing is broadcast (the
emission list is empty). -/
theorem nonmember_requests_are_silently_dropped :
    ∀ (st : ServerState) (sender : String) (d : DrawData) (rd : RoomData)
      (now : Nat),
      (st.rm.isUserInRoom sender ((d.roomId).getD "default") = false →
        onDraw st sender d now = (st, [])) ∧
      (st.rm.isUserInRoom sender ((rd.roomId).getD "default") = false →
        onUndo st sender rd = (st, []) ∧
        onRedo st sender rd = (st, []) ∧
        onClearCanvas st sender rd = (st, [])) := by
  intro st sender d rd now
  constructor
  · intro h
    unfold onDraw
    simp [h]
  · intro h
    refine ⟨?_, ?_, ?_⟩
    · unfold onUndo
      simp [h]
    · unfold onRedo
      simp [h]
    · unfold onClearCanvas
      simp [h]

/-- Witness for C5: on a server with one room `"art"` inhabited only by
`"v"`, requests from the non-member `"u"` targeting `"art"` are all dropped
with no state change and no emission. -/
theorem nonmember_requests_are_silently_dropped_witness :
    onDraw ⟨⟨[("art", ⟨["v"]⟩)]⟩, ⟨[("art", ⟨[wA1], []⟩)]⟩⟩ "u"
        ⟨some "art", some ⟨some "A9", some [(5, 5)], some "green"⟩⟩ 3
      = (⟨⟨[("art", ⟨["v"]⟩)]⟩, ⟨[("art", ⟨[wA1], []⟩)]⟩⟩, []) ∧
    onUndo ⟨⟨[("art", ⟨["v"]⟩)]⟩, ⟨[("art", ⟨[wA1], []⟩)]⟩⟩ "u" ⟨some "art"⟩
      = (⟨⟨[("art", ⟨["v"]⟩)]⟩, ⟨[("art", ⟨[wA1], []⟩)]⟩⟩, []) ∧
    onRedo ⟨⟨[("art", ⟨["v"]⟩)]⟩, ⟨[("art", ⟨[wA1], []⟩)]⟩⟩ "u" ⟨some "art"⟩
      = (⟨⟨[("art", ⟨["v"]⟩)]⟩, ⟨[("art", ⟨[wA1], []⟩)]⟩⟩, []) ∧
    onClearCanvas ⟨⟨[("art", ⟨["v"]⟩)]⟩, ⟨[("art", ⟨[wA1], []⟩)]⟩⟩ "u"
        ⟨some "art"⟩
      = (⟨⟨[("art", ⟨["v"]⟩)]⟩, ⟨[("art", ⟨[wA1], []⟩)]⟩⟩, []) := by
  have h := nonmember_requests_are_silently_dropped
    ⟨⟨[("art", ⟨["v"]⟩)]⟩, ⟨[("art", ⟨[wA1], []⟩)]⟩⟩ "u"
    ⟨some "art", some ⟨some "A9", some [(5, 5)], some "green"⟩⟩
    ⟨some "art"⟩ 3
  exact ⟨h.1 (by decide), (h.2 (by decide)).1, (h.2 (by decide)).2.1,
    (h.2 (by decide)).2.2⟩

/-- C7 counterexample: the claim that NO caller mutation of the value
returned by `getHistory` — including mutation of the stroke records it
contains — can change the store's history is false.  The spread
`[...room.history]` copies only the array; the records are shared.  In the
reference model: a store holding one stroke record hands out reference `0`;
the caller writing a different record through that reference changes what
the store's internal history dereferences to. -/
theorem getHistory_record_mutation_counterexample :
    (0 : Nat) ∈ (RefStore.mk [wA1] [0]).getHistoryRefs ∧
    ((RefStore.mk [wA1] [0]).writeThroughRef 0 wA2).derefHistory
      ≠ (RefStore.mk [wA1] [0]).derefHistory := by decide

/-- C7 as amended: `getHistory`'s copy is shallow.  The store's internal
reference array (and the list of references handed out) is untouched by a
caller's write through a returned reference — so array-level mutations of
the returned copy never affect the store — but the stroke records are
shared: writing a different record through any reference contained in the
history changes the store's dereferenced history. -/
theorem getHistory_shallow_copy_semantics :
    ∀ (s : RefStore) (r : Nat) (p : Path),
      ((s.writeThroughRef r p).history = s.history ∧
       (s.writeThroughRef r p).getHistoryRefs = s.getHistoryRefs) ∧
      (r ∈ s.getHistoryRefs → r < s.heap.length →
        p ≠ s.heap.getD r default →
        (s.writeThroughRef r p).derefHistory ≠ s.derefHistory) := by
  intro s r p
  refine ⟨⟨rfl, rfl⟩, ?_⟩
  intro hmem hlt hne heq
  simp only [RefStore.getHistoryRefs] at hmem
  obtain ⟨⟨i, hi⟩, hget⟩ := List.mem_iff_get.mp hmem
  have hcong := congrArg (fun l => l.get? i) heq
  simp only [RefStore.derefHistory, RefStore.writeThroughRef,
    List.getElem?_map, List.get?_eq_getElem?] at hcong
  have hsome : s.history[i]? = some r := by
    rw [List.get_eq_getElem] at hget
    rw [List.getElem?_eq_getElem hi, hget]
  rw [hsome] at hcong
  simp only [Option.map_some'] at hcong
  have hset : (s.heap.set r p).getD r default = p := by
    have hlt' : r < (s.heap.set r p).length := by simpa using hlt
    rw [List.getD_eq_getElem _ _ hlt']
    simp
  injection hcong with hval
  exact hne (hset.symm.trans hval)

/-- Witness for C7's amended theorem: on the one-record store, the write
leaves the internal reference array untouched but changes the dereferenced
history. -/
theorem getHistory_shallow_copy_semantics_witness :
    (((RefStore.mk [wA1] [0]).writeThroughRef 0 wA2).history
        = (RefStore.mk [wA1] [0]).history ∧
     ((RefStore.mk [wA1] [0]).writeThroughRef 0 wA2).getHistoryRefs
        = (RefStore.mk [wA1] [0]).getHistoryRefs) ∧
    ((RefStore.mk [wA1] [0]).writeThroughRef 0 wA2).derefHistory
      ≠ (RefStore.mk [wA1] [0]).derefHistory := by
  have h := getHistory_shallow_copy_semantics (RefStore.mk [wA1] [0]) 0 wA2
  exact ⟨h.1, h.2 (by decide) (by decide) (by decide)⟩

/-- C8: contrary to the spec's "reject without mutating state; no partial
strokes are ever committed", the `draw` handler performs no payload
validation.  Evaluating the code at the failing input — a member `"u"` of
room `"default"` sending a draw whose payload has no `path` (hence no
points) — shows the partial stroke (only `userId` and a server timestamp;
`id`, `points` and `color` all absent) being appended to the room's history
and broadcast to the room. -/
theorem malformed_draw_is_committed :
    onDraw (ServerState.mk ⟨[("default", ⟨["u"]⟩)]⟩
        ⟨[("default", ⟨[], []⟩)]⟩) "u" ⟨some "default", none⟩ 5
      = (ServerState.mk ⟨[("default", ⟨["u"]⟩)]⟩
           ⟨[("default", ⟨[⟨none, none, none, "u", some 5⟩], []⟩)]⟩,
         [Emit.drawMsg "default" ⟨none, none, none, "u", some 5⟩]) := by
  decide

/-
  Lemmas for the disconnect / teardown path (C6).
-/

theorem leaveRoom_preserves_absent (rm : RoomManager) (u k r : String)
    (h : mapLookup rm.rooms r = none) :
    mapLookup ((rm.leaveRoom u k).2).rooms r = none := by
  unfold RoomManager.leaveRoom
  rcases hl : mapLookup rm.rooms k with _ | room
  · simp only [hl]
    exact h
  · simp only [hl]
    split
    · exact mapLookup_mapErase_of_none _ _ _ h
    · exact mapLookup_mapSet_of_none _ _ _ _ h

theorem leaveRoom_other_key (rm : RoomManager) (u k r : String)
    (h : r ≠ k) :
    mapLookup ((rm.leaveRoom u k).2).rooms r = mapLookup rm.rooms r := by
  unfold RoomManager.leaveRoom
  rcases hl : mapLookup rm.rooms k with _ | room
  · simp only [hl]
  · simp only [hl]
    split
    · exact mapLookup_mapErase_ne _ _ _ h
    · exact mapLookup_mapSet_ne _ _ _ _ h

theorem isUserInRoom_of_lookup (rm : RoomManager) (u k : String)
    (room : RMRoom) (hl : mapLookup rm.rooms k = some room)
    (hu : u ∈ room.users) :
    rm.isUserInRoom u k = true := by
  unfold RoomManager.isUserInRoom
  simp only [hl]
  simpa using hu

theorem leaveRoom_solo (rm : RoomManager) (u k : String)
    (hl : mapLookup rm.rooms k = some (RMRoom.mk [u])) :
    (rm.leaveRoom u k).2 = ⟨mapErase rm.rooms k⟩ := by
  unfold RoomManager.leaveRoom
  simp only [hl]
  have hd : setDel [u] u = [] := by simp [setDel]
  simp [hd]

theorem leaveAllAux_cons (u k : String) (ks : List String)
    (rm : RoomManager) :
    leaveAllAux u (k :: ks) rm =
      if rm.isUserInRoom u k then
        (k :: (leaveAllAux u ks (rm.leaveRoom u k).2).1,
         (leaveAllAux u ks (rm.leaveRoom u k).2).2)
      else leaveAllAux u ks rm := by
  by_cases hm : rm.isUserInRoom u k = true
  · rcases h : leaveAllAux u ks (rm.leaveRoom u k).2 with ⟨left, rm''⟩
    simp [leaveAllAux, hm, h]
  · simp [leaveAllAux, hm]

theorem leaveAllAux_preserves_absent (u r : String) :
    ∀ (ks : List String) (rm : RoomManager),
      mapLookup rm.rooms r = none →
      mapLookup ((leaveAllAux u ks rm).2).rooms r = none := by
  intro ks
  induction ks with
  | nil => intro rm h; exact h
  | cons k ks ih =>
    intro rm h
    rw [leaveAllAux_cons]
    by_cases hm : rm.isUserInRoom u k = true
    · rw [if_pos hm]
      exact ih _ (leaveRoom_preserves_absent rm u k r h)
    · rw [if_neg hm]
      exact ih _ h

theorem leaveAllAux_deletes_solo (u r : String) :
    ∀ (ks : List String) (rm : RoomManager), r ∈ ks →
      mapLookup rm.rooms r = some (RMRoom.mk [u]) →
      mapLookup ((leaveAllAux u ks rm).2).rooms r = none ∧
      r ∈ (leaveAllAux u ks rm).1 := by
  intro ks
  induction ks with
  | nil =>
    intro rm hmem
    exact absurd hmem (List.not_mem_nil r)
  | cons k ks ih =>
    intro rm hmem hl
    rw [leaveAllAux_cons]
    by_cases hk : k = r
    · subst hk
      have hm : rm.isUserInRoom u k = true :=
        isUserInRoom_of_lookup rm u k (RMRoom.mk [u]) hl (by simp)
      rw [if_pos hm]
      refine ⟨?_, List.mem_cons_self k _⟩
      refine leaveAllAux_preserves_absent u k ks (rm.leaveRoom u k).2 ?_
      rw [leaveRoom_solo rm u k hl]
      exact mapLookup_mapErase_self rm.rooms k
    · have hr' : r ∈ ks := by
        rcases List.mem_cons.mp hmem with hcase | hcase
        · exact absurd hcase.symm hk
        · exact hcase
      by_cases hm : rm.isUserInRoom u k = true
      · rw [if_pos hm]
        have hl' : mapLookup ((rm.leaveRoom u k).2).rooms r
            = some (RMRoom.mk [u]) := by
          rw [leaveRoom_other_key rm u k r (fun e => hk e.symm)]
          exact hl
        obtain ⟨h1, h2⟩ := ih _ hr' hl'
        exact ⟨h1, List.mem_cons_of_mem k h2⟩
      · rw [if_neg hm]
        exact ih rm hr' hl

theorem clearUserHistory_preserves_absent (sm : StateManager)
    (k u r : String) (h : mapLookup sm.rooms r = none) :
    mapLookup (sm.clearUserHistory k u).rooms r = none := by
  unfold StateManager.clearUserHistory
  rcases hl : mapLookup sm.rooms k with _ | room
  · simp only [hl]
    exact h
  · simp only [hl]
    exact mapLookup_mapSet_of_none _ _ _ _ h

theorem getRoomUserCount_of_absent (rm : RoomManager) (r : String)
    (h : mapLookup rm.rooms r = none) :
    rm.getRoomUserCount r = 0 := by
  unfold RoomManager.getRoomUserCount
  simp only [h]

theorem disconnectAux_fst (u : String) (rm : RoomManager) (k : String)
    (rest : List String) (sm : StateManager) :
    (disconnectAux u rm (k :: rest) sm).1 =
      (disconnectAux u rm rest
        (if rm.getRoomUserCount k = 0
          then (sm.clearUserHistory k u).deleteRoom k
          else sm.clearUserHistory k u)).1 := by
  conv_lhs => unfold disconnectAux

theorem disconnectAux_preserves_absent (u r : String) (rm : RoomManager) :
    ∀ (rooms : List String) (sm : StateManager),
      mapLookup sm.rooms r = none →
      mapLookup ((disconnectAux u rm rooms sm).1).rooms r = none := by
  intro rooms
  induction rooms with
  | nil => intro sm h; exact h
  | cons k rest ih =>
    intro sm h
    rw [disconnectAux_fst]
    apply ih
    by_cases hc : rm.getRoomUserCount k = 0
    · rw [if_pos hc]
      exact mapLookup_mapErase_of_none _ _ _
        (clearUserHistory_preserves_absent sm k u r h)
    · rw [if_neg hc]
      exact clearUserHistory_preserves_absent sm k u r h

theorem disconnectAux_deletes (u r : String) (rm : RoomManager)
    (hrm : mapLookup rm.rooms r = none) :
    ∀ (rooms : List String) (sm : StateManager), r ∈ rooms →
      mapLookup ((disconnectAux u rm rooms sm).1).rooms r = none := by
  intro rooms
  induction rooms with
  | nil =>
    intro sm hmem
    exact absurd hmem (List.not_mem_nil r)
  | cons k rest ih =>
    intro sm hmem
    rw [disconnectAux_fst]
    by_cases hk : k = r
    · subst hk
      apply disconnectAux_preserves_absent
      rw [if_pos (getRoomUserCount_of_absent rm k hrm)]
      exact mapLookup_mapErase_self _ _
    · have hmem' : r ∈ rest := by
        rcases List.mem_cons.mp hmem with hcase | hcase
        · exact absurd hcase.symm hk
        · exact hcase
      exact ih _ hmem'

theorem createRoom_fresh (sm : StateManager) (r : String)
    (h : mapLookup sm.rooms r = none) :
    mapLookup (sm.createRoom r).rooms r = some (RoomState.mk [] []) := by
  unfold StateManager.createRoom
  have hh : mapHas sm.rooms r = false := by simp [mapHas, h]
  rw [hh]
  simp only [Bool.false_eq_true, if_false]
  exact mapLookup_append_of_none _ _ _ h

theorem joinRoom_fresh (rm : RoomManager) (w r : String)
    (h : mapLookup rm.rooms r = none) :
    mapLookup ((rm.joinRoom w r).2).rooms r = some (RMRoom.mk [w]) := by
  unfold RoomManager.joinRoom RoomManager.createRoom
  have hh : mapHas rm.rooms r = false := by simp [mapHas, h]
  rw [hh]
  simp only [Bool.false_eq_true, if_false]
  have hl : mapLookup (rm.rooms ++ [(r, RMRoom.mk [])]) r
      = some (RMRoom.mk []) := mapLookup_append_of_none _ _ _ h
  simp only [hl]
  have ha : setAdd ([] : List String) w = [w] := by simp [setAdd]
  simp only [ha]
  rw [mapLookup_mapSet, hl]
  rfl

theorem onDisconnect_state (st : ServerState) (sender : String) :
    (onDisconnect st sender).1
      = ⟨(st.rm.leaveAllRooms sender).2,
         (disconnectAux sender (st.rm.leaveAllRooms sender).2
            (st.rm.leaveAllRooms sender).1 st.sm).1⟩ := by
  unfold onDisconnect
  rcases hL : st.rm.leaveAllRooms sender with ⟨roomsLeft, rm'⟩
  rcases hD : disconnectAux sender rm' roomsLeft st.sm with ⟨sm', emits⟩
  simp [hL, hD]

theorem onJoinRoom_state (st : ServerState) (sender roomId : String) :
    (onJoinRoom st sender roomId).1
      = ⟨(st.rm.joinRoom sender roomId).2, st.sm.createRoom roomId⟩ := by
  unfold onJoinRoom
  rcases hJ : st.rm.joinRoom sender roomId with ⟨info, rm'⟩
  simp [hJ]

/-- C6: when a room's member count reaches zero through the disconnect
cleanup (the only leave path the gateway has — its sole member `sender`
disconnecting), the room is deleted from BOTH the session registry and the
drawing state store, and a later join of the same room identifier by any
user `w` creates a fresh room: registry membership is exactly `[w]`, the
store's room state is `{history = [], undoStack = []}` and `getHistory`
returns the empty list. -/
theorem empty_room_state_torn_down :
    ∀ (st : ServerState) (sender w roomId : String),
      mapLookup st.rm.rooms roomId = some (RMRoom.mk [sender]) →
      mapLookup ((onDisconnect st sender).1).rm.rooms roomId = none ∧
      mapLookup ((onDisconnect st sender).1).sm.rooms roomId = none ∧
      mapLookup ((onJoinRoom (onDisconnect st sender).1 w
          roomId).1).rm.rooms roomId = some (RMRoom.mk [w]) ∧
      mapLookup ((onJoinRoom (onDisconnect st sender).1 w
          roomId).1).sm.rooms roomId = some (RoomState.mk [] []) ∧
      ((onJoinRoom (onDisconnect st sender).1 w roomId).1).sm.getHistory
        roomId = [] := by
  intro st sender w roomId h
  have hkeys : roomId ∈ st.rm.rooms.map Prod.fst :=
    mem_keys_of_mapLookup _ _ _ h
  have hsolo := leaveAllAux_deletes_solo sender roomId
    (st.rm.rooms.map Prod.fst) st.rm hkeys h
  have hL : st.rm.leaveAllRooms sender
      = leaveAllAux sender (st.rm.rooms.map Prod.fst) st.rm := rfl
  have hrm' : mapLookup ((st.rm.leaveAllRooms sender).2).rooms roomId
      = none := by
    rw [hL]
    exact hsolo.1
  have hmemLeft : roomId ∈ (st.rm.leaveAllRooms sender).1 := by
    rw [hL]
    exact hsolo.2
  have hsm' : mapLookup ((disconnectAux sender
      (st.rm.leaveAllRooms sender).2 (st.rm.leaveAllRooms sender).1
      st.sm).1).rooms roomId = none :=
    disconnectAux_deletes sender roomId _ hrm' _ st.sm hmemLeft
  rw [onDisconnect_state]
  refine ⟨hrm', hsm', ?_, ?_, ?_⟩
  · rw [onJoinRoom_state]
    exact joinRoom_fresh _ w roomId hrm'
  · rw [onJoinRoom_state]
    exact createRoom_fresh _ roomId hsm'
  · rw [onJoinRoom_state]
    have hfresh := createRoom_fresh ((disconnectAux sender
      (st.rm.leaveAllRooms sender).2 (st.rm.leaveAllRooms sender).1
      st.sm).1) roomId hsm'
    unfold StateManager.getHistory
    simp only [hfresh]

/-- Witness for C6: room `"r"` is inhabited only by `"u"` and has one
stroke; `"u"` disconnecting deletes `"r"` from both the registry and the
store, and a later join of `"r"` by `"w"` yields a fresh room with `"w"` as
its only member and an empty history and undo stack. -/
theorem empty_room_state_torn_down_witness :
    mapLookup ((onDisconnect (ServerState.mk ⟨[("r", ⟨["u"]⟩)]⟩
        ⟨[("r", ⟨[wA1], []⟩)]⟩) "u").1).rm.rooms "r" = none ∧
    mapLookup ((onDisconnect (ServerState.mk ⟨[("r", ⟨["u"]⟩)]⟩
        ⟨[("r", ⟨[wA1], []⟩)]⟩) "u").1).sm.rooms "r" = none ∧
    mapLookup ((onJoinRoom (onDisconnect (ServerState.mk
        ⟨[("r", ⟨["u"]⟩)]⟩ ⟨[("r", ⟨[wA1], []⟩)]⟩) "u").1 "w"
        "r").1).rm.rooms "r" = some (RMRoom.mk ["w"]) ∧
    mapLookup ((onJoinRoom (onDisconnect (ServerState.mk
        ⟨[("r", ⟨["u"]⟩)]⟩ ⟨[("r", ⟨[wA1], []⟩)]⟩) "u").1 "w"
        "r").1).sm.rooms "r" = some (RoomState.mk [] []) ∧
    ((onJoinRoom (onDisconnect (ServerState.mk ⟨[("r", ⟨["u"]⟩)]⟩
        ⟨[("r", ⟨[wA1], []⟩)]⟩) "u").1 "w" "r").1).sm.getHistory "r"
      = [] :=
  empty_room_state_torn_down
    (ServerState.mk ⟨[("r", ⟨["u"]⟩)]⟩ ⟨[("r", ⟨[wA1], []⟩)]⟩)
    "u" "w" "r" (by decide)

end CollabCanvas
